import Mathlib

/-!
Verification development for `backend/pii_detector.py` of the
Speech-to-Insights repository.

The Python module detects PII spans in a text with a fixed list of
compiled regular expressions (plus optional external detectors), merges
overlapping candidates by a score/length priority rule, and redacts the
accepted spans.  This file shallowly embeds that module:

* a backtracking regular-expression engine `reMatch` that mirrors the
  leftmost-match, ordered-backtracking semantics of Python's `re`
  module for the constructs used by `_REGEX_PATTERNS` (character
  classes, concatenation, ordered alternation, greedy/lazy `*`, greedy
  `?`, greedy counted repetition `{m,n}`, and the `\b` word-boundary
  assertion);
* the seven patterns of `_REGEX_PATTERNS`, transcribed operator by
  operator;
* `_regex_detect`, `_merge_entities` (Python's stable `list.sort` is
  modelled by an insertion sort over index-decorated elements, which is
  exactly the stable order), `detect_pii`, `_mask_keep_last`,
  `_redact_spanwise` and `redact_pii`.

Texts are modelled as `List Char` (Python `str` is a sequence of code
points) and scores as `ℚ` (the module's float constants are compared
only among themselves, and rational order agrees with float order on
them).
-/

namespace PiiDetector

open List

/-! ## Character classes

Python's `\d`, `\s`, `\w` also cover non-ASCII code points; the
patterns of the module are applied to ASCII texts in all scenarios the
spec fixes, and we model the ASCII sets. -/

/-- `lo ≤ c ≤ hi` on code points. -/
def btw (c : Char) (lo hi : Nat) : Bool :=
  decide (lo ≤ c.toNat) && decide (c.toNat ≤ hi)

/-- `c` is exactly the code point `n`. -/
def chIs (c : Char) (n : Nat) : Bool := c.toNat == n

def isDigitCh (c : Char) : Bool := btw c 48 57

def isLowerCh (c : Char) : Bool := btw c 97 122

def isUpperCh (c : Char) : Bool := btw c 65 90

def isAlphaNumCh (c : Char) : Bool := isDigitCh c || isLowerCh c || isUpperCh c

/-- regex `\w`: letters, digits, underscore. -/
def isWordCh (c : Char) : Bool := isAlphaNumCh c || chIs c 95

/-- regex `\s`: space, tab, LF, VT, FF, CR. -/
def isSpaceCh (c : Char) : Bool := chIs c 32 || btw c 9 13

/-- class `[a-zA-Z0-9_.+-]` (local part of EMAIL). -/
def emailLocalCh (c : Char) : Bool :=
  isAlphaNumCh c || chIs c 95 || chIs c 46 || chIs c 43 || chIs c 45

/-- class `[a-zA-Z0-9-]` (domain label of EMAIL). -/
def emailDomainCh (c : Char) : Bool := isAlphaNumCh c || chIs c 45

/-- class `[a-zA-Z0-9-.]` (tail of EMAIL). -/
def emailTldCh (c : Char) : Bool := isAlphaNumCh c || chIs c 45 || chIs c 46

/-- class `[-.\s]` (separators of PHONE). -/
def phoneSepCh (c : Char) : Bool := chIs c 45 || chIs c 46 || isSpaceCh c

/-- class `[ -]` (separators of CREDIT_CARD). -/
def ccSepCh (c : Char) : Bool := chIs c 32 || chIs c 45

/-- class `[^\s]`. -/
def notSpaceCh (c : Char) : Bool := !isSpaceCh c

/-! ## A backtracking regex engine with Python `re` semantics -/

/-- Abstract syntax of the regular-expression fragment used by
`_REGEX_PATTERNS`.  The `Bool` on `star` and `opt` is the greediness
flag (`true` = greedy, `false` = lazy, i.e. `*?`).  `rep m n r` is the
greedy counted repetition `r{m,n}`. -/
inductive Re where
  | eps : Re
  | cls : (Char → Bool) → Re
  | seq : Re → Re → Re
  | alt : Re → Re → Re
  | opt : Bool → Re → Re
  | star : Bool → Re → Re
  | rep : Nat → Nat → Re → Re
  | wordB : Re

/-- Is position `i` of `s` occupied by a word character? -/
def isWordAt (s : List Char) (i : Nat) : Bool :=
  match s[i]? with
  | some c => isWordCh c
  | none => false

/-- `\b`: position `pos` lies between a word character and a non-word
character (start/end of string count as non-word). -/
def isWordBoundary (s : List Char) (pos : Nat) : Bool :=
  (if pos = 0 then false else isWordAt s (pos - 1)) != isWordAt s pos

/-- CPS backtracking matcher.  `reMatch fuel r s pos k` tries to match
`r` at position `pos` of `s` and passes the end position of each
candidate match to the continuation `k`, in exactly the order Python's
backtracking engine enumerates them; the first `some` wins.  `fuel`
bounds the recursion depth and is chosen large enough by the callers. -/
def reMatch : Nat → Re → List Char → Nat → (Nat → Option Nat) → Option Nat
  | 0, _, _, _, _ => none
  | fuel + 1, r, s, pos, k =>
    match r with
    | .eps => k pos
    | .cls p =>
      match s[pos]? with
      | some c => if p c then k (pos + 1) else none
      | none => none
    | .seq a b => reMatch fuel a s pos (fun q => reMatch fuel b s q k)
    | .alt a b =>
      match reMatch fuel a s pos k with
      | some e => some e
      | none => reMatch fuel b s pos k
    | .opt g a =>
      if g then
        match reMatch fuel a s pos k with
        | some e => some e
        | none => k pos
      else
        match k pos with
        | some e => some e
        | none => reMatch fuel a s pos k
    | .star g a =>
      if g then
        match reMatch fuel a s pos
            (fun q => if q = pos then none else reMatch fuel (.star g a) s q k) with
        | some e => some e
        | none => k pos
      else
        match k pos with
        | some e => some e
        | none =>
          reMatch fuel a s pos
            (fun q => if q = pos then none else reMatch fuel (.star g a) s q k)
    | .rep m n a =>
      match m, n with
      | mm + 1, nn => reMatch fuel a s pos (fun q => reMatch fuel (.rep mm (nn - 1) a) s q k)
      | 0, 0 => k pos
      | 0, nn + 1 =>
        match reMatch fuel a s pos
            (fun q => if q = pos then none else reMatch fuel (.rep 0 nn a) s q k) with
        | some e => some e
        | none => k pos
    | .wordB => if isWordBoundary s pos then k pos else none

/-- First match of `r` anchored at `pos`: the end position Python's
engine would report for `re.match` at that offset. -/
def matchAt (r : Re) (s : List Char) (pos : Nat) : Option Nat :=
  reMatch ((s.length + 1) * 200 + 200) r s pos some

/-- Scanner loop of `finditer`: try each start position left to right,
emit the match found there, resume after its end (or one to the right
of a zero-width match). -/
def findIterAux : Nat → Re → List Char → Nat → List (Nat × Nat)
  | 0, _, _, _ => []
  | fuel + 1, r, s, pos =>
    if pos > s.length then []
    else
      match matchAt r s pos with
      | some e =>
        if pos < e then (pos, e) :: findIterAux fuel r s e
        else (pos, e) :: findIterAux fuel r s (pos + 1)
      | none => findIterAux fuel r s (pos + 1)

/-- All non-overlapping matches of `r` in `s`, leftmost first, as
`(start, end)` pairs — Python's `pattern.finditer(s)`. -/
def finditer (r : Re) (s : List Char) : List (Nat × Nat) :=
  findIterAux (s.length + 2) r s 0

/-! ## The seven compiled patterns of `_REGEX_PATTERNS` -/

/-- A literal character, by code point. -/
def rchar (n : Nat) : Re := .cls (fun c => chIs c n)

/-- `r+` desugared as `r r*` (same backtracking order for the
single-character bodies it is applied to). -/
def rplus (g : Bool) (r : Re) : Re := .seq r (.star g r)

/-- `[a-zA-Z0-9_.+-]+@[a-zA-Z0-9-]+\.[a-zA-Z0-9-.]+` -/
def emailRe : Re :=
  .seq (rplus true (.cls emailLocalCh))
    (.seq (rchar 64)
      (.seq (rplus true (.cls emailDomainCh))
        (.seq (rchar 46) (rplus true (.cls emailTldCh)))))

/-- `(?:\+?\d{1,3}[-.\s]?)?(?:\(?\d{2,4}\)?[-.\s]?)?\d{3,4}[-.\s]?\d{3,4}` -/
def phoneRe : Re :=
  .seq (.opt true (.seq (.opt true (rchar 43))
          (.seq (.rep 1 3 (.cls isDigitCh)) (.opt true (.cls phoneSepCh)))))
    (.seq (.opt true (.seq (.opt true (rchar 40))
            (.seq (.rep 2 4 (.cls isDigitCh))
              (.seq (.opt true (rchar 41)) (.opt true (.cls phoneSepCh))))))
      (.seq (.rep 3 4 (.cls isDigitCh))
        (.seq (.opt true (.cls phoneSepCh)) (.rep 3 4 (.cls isDigitCh)))))

/-- `\b\d{3}-\d{2}-\d{4}\b` -/
def ssnRe : Re :=
  .seq .wordB
    (.seq (.rep 3 3 (.cls isDigitCh))
      (.seq (rchar 45)
        (.seq (.rep 2 2 (.cls isDigitCh))
          (.seq (rchar 45) (.seq (.rep 4 4 (.cls isDigitCh)) .wordB)))))

/-- `\b(?:\d[ -]*?){13,19}\b` -/
def creditCardRe : Re :=
  .seq .wordB
    (.seq (.rep 13 19 (.seq (.cls isDigitCh) (.star false (.cls ccSepCh)))) .wordB)

/-- `\b(?:\d{1,3}\.){3}\d{1,3}\b` -/
def ipRe : Re :=
  .seq .wordB
    (.seq (.rep 3 3 (.seq (.rep 1 3 (.cls isDigitCh)) (rchar 46)))
      (.seq (.rep 1 3 (.cls isDigitCh)) .wordB))

/-- `https?://[^\s]+|www\.[^\s]+` -/
def urlRe : Re :=
  .alt
    (.seq (rchar 104) (.seq (rchar 116) (.seq (rchar 116) (.seq (rchar 112)
      (.seq (.opt true (rchar 115)) (.seq (rchar 58) (.seq (rchar 47)
        (.seq (rchar 47) (rplus true (.cls notSpaceCh))))))))))
    (.seq (rchar 119) (.seq (rchar 119) (.seq (rchar 119)
      (.seq (rchar 46) (rplus true (.cls notSpaceCh))))))

/-- `\b[A-Z]{1,2}\d{4,8}\b` -/
def usdlRe : Re :=
  .seq .wordB
    (.seq (.rep 1 2 (.cls isUpperCh)) (.seq (.rep 4 8 (.cls isDigitCh)) .wordB))

/-! ## Entities and the regex detector -/

/-- One detected PII candidate — the dict built by the detectors
(`type`, `score`, `start`, `end`, `text`, `source`).  The Python key
`end` is spelled `end_`. -/
structure Entity where
  type : String
  score : ℚ
  start : Nat
  end_ : Nat
  text : List Char
  source : String
deriving DecidableEq, Repr

/-- `_REGEX_PATTERNS`: label, compiled pattern, confidence estimate.
The confidences 0.95, 0.70, 0.98, 0.60, 0.90, 0.90, 0.35 are written as
reduced rationals (`Rat.mk'` keeps every score computation in kernel-
reducible normal form); rational order and equality agree with the
float order and equality of the source's constants. -/
def REGEX_PATTERNS : List (String × Re × ℚ) :=
  [("EMAIL", emailRe, Rat.mk' 19 20),
   ("PHONE", phoneRe, Rat.mk' 7 10),
   ("SSN", ssnRe, Rat.mk' 49 50),
   ("CREDIT_CARD", creditCardRe, Rat.mk' 3 5),
   ("IP_ADDRESS", ipRe, Rat.mk' 9 10),
   ("URL", urlRe, Rat.mk' 9 10),
   ("US_DRIVER_LICENSE", usdlRe, Rat.mk' 7 20)]

/-- `_regex_detect`: run every pattern's `finditer` over the text, skip
zero-length matches, and record label, confidence, span, matched text
and source for each match. -/
def regex_detect (text : List Char) : List Entity :=
  REGEX_PATTERNS.flatMap (fun pat =>
    (finditer pat.2.1 text).filterMap (fun se =>
      if se.2 ≤ se.1 then none
      else some { type := pat.1, score := pat.2.2, start := se.1, end_ := se.2,
                  text := (text.drop se.1).take (se.2 - se.1), source := "regex" }))

/-! ## Stable sorting (Python `list.sort`)

Python's `list.sort(key=k)` is a stable sort: its result is the unique
ordering of the index-decorated list under the lexicographic comparison
(key, original index).  We realise exactly that: decorate with indices,
insertion-sort under a comparator whose final tie-break is the index,
strip the indices. -/

/-- Pair each element with its position, starting at `i`. -/
def decorate : List α → Nat → List (α × Nat)
  | [], _ => []
  | x :: xs, i => (x, i) :: decorate xs (i + 1)

/-- Insert `x` in front of the first element it compares `le` to. -/
def insertSortedB (le : α → α → Bool) (x : α) : List α → List α
  | [] => [x]
  | y :: ys => if le x y then x :: y :: ys else y :: insertSortedB le x ys

/-- Insertion sort with a boolean comparator. -/
def insertionSortB (le : α → α → Bool) : List α → List α
  | [] => []
  | x :: xs => insertSortedB le x (insertionSortB le xs)

/-- Python's stable `list.sort` under a comparator on index-decorated
elements. -/
def pySortBy (le : α × Nat → α × Nat → Bool) (l : List α) : List α :=
  (insertionSortB le (decorate l 0)).map Prod.fst

/-- `end - start` as the Python `int` subtraction. -/
def spanLen (e : Entity) : Int := (e.end_ : Int) - (e.start : Int)

/-- The `_merge_entities` sort key
`(-score, -(end - start), start)` — score descending, span length
descending, start ascending — with the decoration index as the
stability tie-break. -/
def mergeLe (p q : Entity × Nat) : Bool :=
  if p.1.score = q.1.score then
    if spanLen p.1 = spanLen q.1 then
      if p.1.start = q.1.start then decide (p.2 ≤ q.2)
      else decide (p.1.start < q.1.start)
    else decide (spanLen q.1 < spanLen p.1)
  else decide (q.1.score < p.1.score)

/-- The final sort key `start` (ascending), index as stability
tie-break. -/
def startLe (p q : Entity × Nat) : Bool :=
  if p.1.start = q.1.start then decide (p.2 ≤ q.2) else decide (p.1.start < q.1.start)

/-! ## `_merge_entities` -/

/-- `not (e <= os or s >= oe)` — the half-open ranges `[s,e)` and
`[os,oe)` intersect. -/
def intersects (s e os oe : Nat) : Bool :=
  !(decide (e ≤ os) || decide (s ≥ oe))

/-- Does `[s,e)` intersect any occupied range? -/
def overlapsAny (s e : Nat) : List (Nat × Nat) → Bool
  | [] => false
  | (os, oe) :: rest => if intersects s e os oe then true else overlapsAny s e rest

/-- The greedy acceptance loop of `_merge_entities`: walk the sorted
candidates, skip empty spans, accept a candidate iff its span does not
intersect any previously occupied range. -/
def acceptGreedy : List Entity → List (Nat × Nat) → List Entity
  | [], _ => []
  | ent :: rest, occupied =>
    if ent.start ≥ ent.end_ then acceptGreedy rest occupied
    else if overlapsAny ent.start ent.end_ occupied then acceptGreedy rest occupied
    else ent :: acceptGreedy rest (occupied ++ [(ent.start, ent.end_)])

/-- `_merge_entities`: concatenate the candidate lists, stable-sort by
`(-score, -(end - start), start)`, greedily accept non-overlapping
spans, and return the accepted entities stable-sorted by `start`.
(The source's `setdefault` normalisation loop is the identity here:
every candidate record carries all of `score`, `start`, `end`.) -/
def merge_entities (primary secondary : List Entity) : List Entity :=
  pySortBy startLe (acceptGreedy (pySortBy mergeLe (primary ++ secondary)) [])

/-! ## `detect_pii` -/

/-- The ambient detector configuration: `AWS_COMPREHEND_ENABLED` with
the Comprehend call's outcome, and spaCy availability with the spaCy
call's outcome.  A `.error` result stands for the external call
raising. -/
structure PiiConfig where
  comprehendEnabled : Bool
  comprehendDetect : List Char → Except String (List Entity)
  spacyAvailable : Bool
  spacyDetect : List Char → Except String (List Entity)

/-- The `summary` object of a report. -/
structure Summary where
  counts : List (String × Nat)
  total : Nat
deriving DecidableEq, Repr

/-- The report returned by `detect_pii`. -/
structure Report where
  text : List Char
  length : Nat
  entities : List Entity
  summary : Summary
deriving DecidableEq, Repr

/-- `counts[e["type"]] = counts.get(e["type"], 0) + 1` on an
insertion-ordered dict. -/
def bumpCount : List (String × Nat) → String → List (String × Nat)
  | [], t => [(t, 1)]
  | (k, v) :: rest, t => if k = t then (k, v + 1) :: rest else (k, v) :: bumpCount rest t

/-- Body of `detect_pii` on an already-type-checked string: regex
detection always runs; Comprehend contributes only when enabled and its
call returns (an exception is caught at the call site and leaves the
empty list); likewise spaCy; the merge prefers higher score then longer
span. -/
def detect_pii (cfg : PiiConfig) (text : List Char) : Report :=
  let regexEntities := regex_detect text
  let comprehendEntities :=
    if cfg.comprehendEnabled then
      match cfg.comprehendDetect text with
      | .ok l => l
      | .error _ => []
    else []
  let spacyEntities :=
    if cfg.spacyAvailable then
      match cfg.spacyDetect text with
      | .ok l => l
      | .error _ => []
    else []
  let merged := merge_entities regexEntities (comprehendEntities ++ spacyEntities)
  { text := text, length := text.length, entities := merged,
    summary := { counts := merged.foldl (fun acc e => bumpCount acc e.type) [],
                 total := merged.length } }

/-- A Python argument value for `detect_pii`: a `str`, or anything
else. -/
inductive PyVal where
  | str : List Char → PyVal
  | nonStr : PyVal

/-- The only exception `detect_pii` itself raises. -/
inductive PyErr where
  | typeError : PyErr
deriving DecidableEq

/-- `detect_pii` with its leading `isinstance(text, str)` guard:
`TypeError` on a non-string before any detection work, otherwise the
report. -/
def detect_pii_checked (cfg : PiiConfig) (v : PyVal) : Except PyErr Report :=
  match v with
  | .str t => .ok (detect_pii cfg t)
  | .nonStr => .error .typeError

/-- The configuration with only the regex detectors active:
`AWS_COMPREHEND_ENABLED` false and no spaCy model. -/
def regexOnly : PiiConfig :=
  { comprehendEnabled := false, comprehendDetect := fun _ => .ok [],
    spacyAvailable := false, spacyDetect := fun _ => .ok [] }

/-! ## Redaction -/

/-- `_DEFAULT_REPLACEMENT`. -/
def DEFAULT_REPLACEMENT : List Char := "[REDACTED]".toList

/-- `_mask_keep_last`: token only when `keep_last <= 0`; token plus the
whole fragment when the fragment is no longer than `keep_last`; token
plus the fragment's last `keep_last` characters otherwise. -/
def mask_keep_last (fragment : List Char) (keepLast : Int) (replaceWith : List Char) :
    List Char :=
  if keepLast ≤ 0 then replaceWith
  else if (fragment.length : Int) ≤ keepLast then replaceWith ++ fragment
  else replaceWith ++ fragment.drop (fragment.length - keepLast.toNat)

/-- `preserve_last_n.get(ent["type"], 0)`. -/
def lookupKeep (pres : List (String × Int)) (t : String) : Int :=
  (pres.lookup t).getD 0

/-- The per-entity replacement of `_redact_spanwise`:
`_mask_keep_last(...) if keep_n else replace_with` — a non-zero
(also negative) `keep_n` selects the mask. -/
def renderReplacement (fragment : List Char) (replaceWith : List Char) (keepN : Int) :
    List Char :=
  if keepN ≠ 0 then mask_keep_last fragment keepN replaceWith else replaceWith

/-- The cursor loop of `_redact_spanwise`: `last` is the cursor; each
entity contributes the untouched slice `text[last:s]` and its rendered
replacement, where `s = max(start, last)` and empty clamped spans are
skipped; the tail `text[last:]` closes the output. -/
def redactLoop (text replaceWith : List Char) (pres : List (String × Int)) :
    List Entity → Nat → List Char
  | [], last => text.drop last
  | ent :: rest, last =>
    if max ent.start last ≥ ent.end_ then redactLoop text replaceWith pres rest last
    else
      ((text.drop last).take (max ent.start last - last)) ++
        renderReplacement
          ((text.drop (max ent.start last)).take (ent.end_ - max ent.start last))
          replaceWith (lookupKeep pres ent.type) ++
        redactLoop text replaceWith pres rest ent.end_

/-- `_redact_spanwise`: sort the entities by `start` (stable, as
`sorted(..., key=...)`) and run the cursor loop. -/
def redact_spanwise (text : List Char) (entities : List Entity)
    (replaceWith : List Char) (pres : List (String × Int)) : List Char :=
  if entities = [] then text
  else redactLoop text replaceWith pres (pySortBy startLe entities) 0

/-- `redact_pii`: detect, then redact the report's entities. -/
def redact_pii (cfg : PiiConfig) (text : List Char)
    (replaceWith : List Char) (pres : List (String × Int)) : List Char × Report :=
  let report := detect_pii cfg text
  (redact_spanwise text report.entities replaceWith pres, report)

/-! ## Spec-side reconstruction formula (for the refinement claim) -/

/-- The spec's left-to-right reconstruction
`text[0:e1.start] + render(e1) + text[e1.end:e2.start] + ... +
text[last.end:]`, written with an explicit cursor. -/
def reconstructSpec (text replaceWith : List Char) (pres : List (String × Int)) :
    List Entity → Nat → List Char
  | [], cursor => text.drop cursor
  | ent :: rest, cursor =>
    (text.drop cursor).take (ent.start - cursor) ++
      renderReplacement ((text.drop ent.start).take (ent.end_ - ent.start)) replaceWith
        (lookupKeep pres ent.type) ++
      reconstructSpec text replaceWith pres rest ent.end_

/-- Substring test (`pat in s` on Python strings). -/
def containsSub (pat s : List Char) : Bool :=
  s.tails.any (fun t => pat.isPrefixOf t)

/-! ## Lemmas about the stable sort -/

theorem perm_insertSortedB (le : α → α → Bool) (x : α) (l : List α) :
    insertSortedB le x l ~ x :: l := by
  induction l with
  | nil => exact List.Perm.refl _
  | cons y ys ih =>
    simp only [insertSortedB]
    by_cases h : le x y = true
    · rw [if_pos h]
    · rw [if_neg h]
      exact (ih.cons y).trans (List.Perm.swap x y ys)

theorem perm_insertionSortB (le : α → α → Bool) (l : List α) :
    insertionSortB le l ~ l := by
  induction l with
  | nil => exact List.Perm.refl _
  | cons x xs ih => exact (perm_insertSortedB le x _).trans (ih.cons x)

theorem sorted_insertSortedB (le : α → α → Bool)
    (htot : ∀ a b, le a b = true ∨ le b a = true)
    (htrans : ∀ a b c, le a b = true → le b c = true → le a c = true)
    (x : α) (l : List α) (hl : l.Pairwise (fun a b => le a b = true)) :
    (insertSortedB le x l).Pairwise (fun a b => le a b = true) := by
  induction l with
  | nil => simp [insertSortedB]
  | cons y ys ih =>
    rcases List.pairwise_cons.mp hl with ⟨hy, hys⟩
    by_cases h : le x y = true
    · simp only [insertSortedB, if_pos h]
      refine List.pairwise_cons.mpr ⟨?_, hl⟩
      intro z hz
      rcases List.mem_cons.mp hz with rfl | hz'
      · exact h
      · exact htrans x y z h (hy z hz')
    · simp only [insertSortedB, if_neg h]
      refine List.pairwise_cons.mpr ⟨?_, ih hys⟩
      intro z hz
      have hz' := (perm_insertSortedB le x ys).mem_iff.mp hz
      rcases List.mem_cons.mp hz' with rfl | hz''
      · exact (htot z y).resolve_left h
      · exact hy z hz''

theorem sorted_insertionSortB (le : α → α → Bool)
    (htot : ∀ a b, le a b = true ∨ le b a = true)
    (htrans : ∀ a b c, le a b = true → le b c = true → le a c = true)
    (l : List α) :
    (insertionSortB le l).Pairwise (fun a b => le a b = true) := by
  induction l with
  | nil => simp [insertionSortB]
  | cons x xs ih => exact sorted_insertSortedB le htot htrans x _ ih

theorem insertionSortB_eq_self (le : α → α → Bool) (l : List α)
    (hl : l.Pairwise (fun a b => le a b = true)) : insertionSortB le l = l := by
  induction l with
  | nil => rfl
  | cons x xs ih =>
    rcases List.pairwise_cons.mp hl with ⟨hx, hxs⟩
    simp only [insertionSortB, ih hxs]
    cases xs with
    | nil => rfl
    | cons y ys => simp [insertSortedB, hx y (by simp)]

theorem decorate_map_fst (l : List α) (i : Nat) : (decorate l i).map Prod.fst = l := by
  induction l generalizing i with
  | nil => rfl
  | cons x xs ih => simp [decorate, ih]

theorem mem_decorate {l : List α} {i : Nat} {p : α × Nat} (h : p ∈ decorate l i) :
    p.1 ∈ l ∧ i ≤ p.2 := by
  induction l generalizing i with
  | nil => cases h
  | cons x xs ih =>
    rcases List.mem_cons.mp h with rfl | h'
    · simp
    · rcases ih h' with ⟨h1, h2⟩
      exact ⟨List.mem_cons_of_mem x h1, Nat.le_trans (Nat.le_succ i) h2⟩

theorem decorate_pairwise {R : α → α → Prop} {l : List α} (hl : l.Pairwise R) (i : Nat) :
    (decorate l i).Pairwise (fun p q => R p.1 q.1 ∧ p.2 < q.2) := by
  induction l generalizing i with
  | nil => simp [decorate]
  | cons x xs ih =>
    rcases List.pairwise_cons.mp hl with ⟨hx, hxs⟩
    refine List.pairwise_cons.mpr ⟨?_, ih hxs (i + 1)⟩
    intro q hq
    rcases mem_decorate hq with ⟨h1, h2⟩
    exact ⟨hx q.1 h1, Nat.lt_of_lt_of_le (Nat.lt_succ_self i) h2⟩

theorem perm_pySortBy (le : α × Nat → α × Nat → Bool) (l : List α) :
    pySortBy le l ~ l := by
  have h := (perm_insertionSortB le (decorate l 0)).map Prod.fst
  rwa [decorate_map_fst] at h

theorem pairwise_pySortBy {S : α → α → Prop} (le : α × Nat → α × Nat → Bool)
    (htot : ∀ a b, le a b = true ∨ le b a = true)
    (htrans : ∀ a b c, le a b = true → le b c = true → le a c = true)
    (himp : ∀ p q, le p q = true → S p.1 q.1) (l : List α) :
    (pySortBy le l).Pairwise S := by
  have h1 := sorted_insertionSortB le htot htrans (decorate l 0)
  exact List.pairwise_map.mpr (h1.imp (fun h => himp _ _ h))

theorem pySortBy_eq_self {R : α → α → Prop} (le : α × Nat → α × Nat → Bool) (l : List α)
    (hl : l.Pairwise R)
    (hcomp : ∀ p q : α × Nat, R p.1 q.1 → p.2 < q.2 → le p q = true) :
    pySortBy le l = l := by
  have hdec := decorate_pairwise hl 0
  have h : (decorate l 0).Pairwise (fun p q => le p q = true) :=
    hdec.imp (fun h => hcomp _ _ h.1 h.2)
  rw [pySortBy, insertionSortB_eq_self le _ h, decorate_map_fst]

/-! ## The two comparators are total preorders -/

/-- The `_merge_entities` sort key as a value of a lexicographic order:
score descending, span length descending, start ascending, index
ascending. -/
def mergeKey (p : Entity × Nat) : ℚᵒᵈ ×ₗ ℤᵒᵈ ×ₗ ℕ ×ₗ ℕ :=
  toLex (OrderDual.toDual p.1.score,
    toLex (OrderDual.toDual (spanLen p.1), toLex (p.1.start, p.2)))

theorem mergeLe_iff (p q : Entity × Nat) : mergeLe p q = true ↔ mergeKey p ≤ mergeKey q := by
  unfold mergeLe mergeKey
  by_cases h1 : p.1.score = q.1.score
  · by_cases h2 : spanLen p.1 = spanLen q.1
    · by_cases h3 : p.1.start = q.1.start
      · simp [h1, h2, h3, Prod.Lex.le_iff, ofLex_toLex,
          OrderDual.toDual_lt_toDual, OrderDual.toDual_inj]
      · simp [h1, h2, h3, Prod.Lex.le_iff, ofLex_toLex,
          OrderDual.toDual_lt_toDual, OrderDual.toDual_inj]
    · simp [h1, h2, Prod.Lex.le_iff, ofLex_toLex,
        OrderDual.toDual_lt_toDual, OrderDual.toDual_inj]
  · simp [h1, Prod.Lex.le_iff, ofLex_toLex,
      OrderDual.toDual_lt_toDual, OrderDual.toDual_inj]

theorem mergeLe_total (p q : Entity × Nat) : mergeLe p q = true ∨ mergeLe q p = true := by
  rw [mergeLe_iff, mergeLe_iff]
  exact le_total (mergeKey p) (mergeKey q)

theorem mergeLe_trans (p q r : Entity × Nat)
    (hpq : mergeLe p q = true) (hqr : mergeLe q r = true) : mergeLe p r = true := by
  rw [mergeLe_iff] at hpq hqr ⊢
  exact le_trans hpq hqr

/-- The final sort key of `_merge_entities` as a lexicographic value:
start ascending, index ascending. -/
def startKey (p : Entity × Nat) : ℕ ×ₗ ℕ := toLex (p.1.start, p.2)

theorem startLe_iff (p q : Entity × Nat) : startLe p q = true ↔ startKey p ≤ startKey q := by
  unfold startLe startKey
  by_cases h : p.1.start = q.1.start <;>
    simp [h, Prod.Lex.le_iff, ofLex_toLex]

theorem startLe_total (p q : Entity × Nat) : startLe p q = true ∨ startLe q p = true := by
  rw [startLe_iff, startLe_iff]
  exact le_total (startKey p) (startKey q)

theorem startLe_trans (p q r : Entity × Nat)
    (hpq : startLe p q = true) (hqr : startLe q r = true) : startLe p r = true := by
  rw [startLe_iff] at hpq hqr ⊢
  exact le_trans hpq hqr

theorem startLe_imp (p q : Entity × Nat) (h : startLe p q = true) :
    p.1.start ≤ q.1.start := by
  rw [startLe_iff, startKey, startKey, Prod.Lex.le_iff] at h
  rcases h with h | ⟨h, _⟩
  · exact le_of_lt h
  · exact le_of_eq h

theorem startLe_of_sorted (p q : Entity × Nat)
    (h1 : p.1.start ≤ q.1.start) (h2 : p.2 < q.2) : startLe p q = true := by
  rw [startLe_iff, startKey, startKey, Prod.Lex.le_iff]
  rcases lt_or_eq_of_le h1 with h | h
  · exact Or.inl h
  · exact Or.inr ⟨h, le_of_lt h2⟩

/-! ## Lemmas about the greedy acceptance -/

theorem intersects_eq_false_iff {s e os oe : Nat} :
    intersects s e os oe = false ↔ e ≤ os ∨ oe ≤ s := by
  simp only [intersects, ge_iff_le, Bool.not_eq_false', Bool.or_eq_true, decide_eq_true_eq]

theorem intersects_symm (s e os oe : Nat) :
    intersects s e os oe = intersects os oe s e := by
  simp only [intersects, ge_iff_le]
  rw [Bool.or_comm]

theorem overlapsAny_eq_false {s e : Nat} {occ : List (Nat × Nat)} :
    overlapsAny s e occ = false ↔ ∀ p ∈ occ, intersects s e p.1 p.2 = false := by
  induction occ with
  | nil => simp [overlapsAny]
  | cons q rest ih =>
    cases q with
    | mk os oe =>
      by_cases h : intersects s e os oe = true
      · simp [overlapsAny, h]
      · rw [Bool.not_eq_true] at h
        simp [overlapsAny, h, ih]

/-- Every accepted entity has a non-empty span and avoids every range
occupied before the loop started. -/
theorem acceptGreedy_sound :
    ∀ (cands : List Entity) (occ : List (Nat × Nat)) (a : Entity),
      a ∈ acceptGreedy cands occ →
      a.start < a.end_ ∧ ∀ p ∈ occ, intersects a.start a.end_ p.1 p.2 = false := by
  intro cands
  induction cands with
  | nil =>
    intro occ a h
    cases h
  | cons ent rest ih =>
    intro occ a h
    by_cases h1 : ent.start ≥ ent.end_
    · rw [acceptGreedy, if_pos h1] at h
      exact ih occ a h
    · by_cases h2 : overlapsAny ent.start ent.end_ occ = true
      · rw [acceptGreedy, if_neg h1, if_pos h2] at h
        exact ih occ a h
      · rw [acceptGreedy, if_neg h1, if_neg h2] at h
        rw [Bool.not_eq_true] at h2
        rcases List.mem_cons.mp h with rfl | h3
        · exact ⟨Nat.lt_of_not_le h1, overlapsAny_eq_false.mp h2⟩
        · rcases ih _ a h3 with ⟨hv, hocc⟩
          exact ⟨hv, fun p hp => hocc p (List.mem_append_left _ hp)⟩

/-- The accepted entities are pairwise non-intersecting. -/
theorem acceptGreedy_pairwise :
    ∀ (cands : List Entity) (occ : List (Nat × Nat)),
      (acceptGreedy cands occ).Pairwise
        (fun a b => intersects a.start a.end_ b.start b.end_ = false) := by
  intro cands
  induction cands with
  | nil =>
    intro occ
    simp [acceptGreedy]
  | cons ent rest ih =>
    intro occ
    by_cases h1 : ent.start ≥ ent.end_
    · rw [acceptGreedy, if_pos h1]
      exact ih occ
    · by_cases h2 : overlapsAny ent.start ent.end_ occ = true
      · rw [acceptGreedy, if_neg h1, if_pos h2]
        exact ih occ
      · rw [acceptGreedy, if_neg h1, if_neg h2]
        refine List.pairwise_cons.mpr ⟨?_, ih _⟩
        intro b hb
        have hsnd := (acceptGreedy_sound rest _ b hb).2 (ent.start, ent.end_)
          (List.mem_append_right _ (List.mem_singleton_self _))
        rw [intersects_symm]
        exact hsnd

/-! ## Invariants of `_merge_entities` -/

theorem merge_entities_pairwise (p s : List Entity) :
    (merge_entities p s).Pairwise
      (fun a b => intersects a.start a.end_ b.start b.end_ = false) := by
  have hacc := acceptGreedy_pairwise (pySortBy mergeLe (p ++ s)) []
  have hperm := perm_pySortBy startLe (acceptGreedy (pySortBy mergeLe (p ++ s)) [])
  have hsym : Symmetric (fun a b : Entity => intersects a.start a.end_ b.start b.end_ = false) := by
    intro a b h
    rw [intersects_symm]
    exact h
  exact (hperm.pairwise_iff (fun h => hsym h)).mpr hacc

theorem merge_entities_sorted (p s : List Entity) :
    (merge_entities p s).Pairwise (fun a b => a.start ≤ b.start) :=
  pairwise_pySortBy startLe startLe_total startLe_trans startLe_imp _

theorem merge_entities_mem_valid (p s : List Entity) (a : Entity)
    (h : a ∈ merge_entities p s) : a.start < a.end_ := by
  have h' := (perm_pySortBy startLe (acceptGreedy (pySortBy mergeLe (p ++ s)) [])).mem_iff.mp h
  exact (acceptGreedy_sound _ _ a h').1

/-- Non-intersection plus start-sortedness chains the accepted spans:
each entity ends no later than the next begins. -/
theorem merge_entities_chain (p s : List Entity) :
    (merge_entities p s).Pairwise (fun a b => a.end_ ≤ b.start) := by
  have h := (merge_entities_pairwise p s).and (merge_entities_sorted p s)
  refine h.imp_of_mem ?_
  intro a b ha hb hab
  rcases hab with ⟨hno, hss⟩
  have hva := merge_entities_mem_valid p s a ha
  have hvb := merge_entities_mem_valid p s b hb
  rcases intersects_eq_false_iff.mp hno with h1 | h1
  · exact h1
  · omega

/-! ## `detect_pii` inherits the merge invariants -/

/-- Unfolded form of the entity list of a report. -/
theorem detect_pii_entities_def (cfg : PiiConfig) (text : List Char) :
    (detect_pii cfg text).entities =
      merge_entities (regex_detect text)
        ((if cfg.comprehendEnabled then
            match cfg.comprehendDetect text with
            | .ok l => l
            | .error _ => []
          else []) ++
         (if cfg.spacyAvailable then
            match cfg.spacyDetect text with
            | .ok l => l
            | .error _ => []
          else [])) := rfl

theorem detect_pii_chain (cfg : PiiConfig) (text : List Char) :
    (detect_pii cfg text).entities.Pairwise (fun a b => a.end_ ≤ b.start) := by
  rw [detect_pii_entities_def]
  exact merge_entities_chain _ _

theorem detect_pii_sorted (cfg : PiiConfig) (text : List Char) :
    (detect_pii cfg text).entities.Pairwise (fun a b => a.start ≤ b.start) := by
  rw [detect_pii_entities_def]
  exact merge_entities_sorted _ _

theorem detect_pii_mem_valid (cfg : PiiConfig) (text : List Char) (a : Entity)
    (h : a ∈ (detect_pii cfg text).entities) : a.start < a.end_ := by
  rw [detect_pii_entities_def] at h
  exact merge_entities_mem_valid _ _ a h

/-! ## The cursor loop realises the reconstruction formula -/

theorem redactLoop_eq_reconstructSpec (text tok : List Char) (pres : List (String × Int)) :
    ∀ (l : List Entity) (last : Nat),
      l.Pairwise (fun a b => a.end_ ≤ b.start) →
      (∀ e ∈ l, e.start < e.end_) →
      (∀ e ∈ l, last ≤ e.start) →
      redactLoop text tok pres l last = reconstructSpec text tok pres l last := by
  intro l
  induction l with
  | nil =>
    intro last _ _ _
    rfl
  | cons ent rest ih =>
    intro last hpw hv hlast
    rcases List.pairwise_cons.mp hpw with ⟨hhead, htail⟩
    have h1 : last ≤ ent.start := hlast ent (List.mem_cons_self _ _)
    have h2 : ent.start < ent.end_ := hv ent (List.mem_cons_self _ _)
    have hmax : max ent.start last = ent.start := Nat.max_eq_left h1
    rw [redactLoop, reconstructSpec, hmax, if_neg (not_le.mpr h2)]
    rw [ih ent.end_ htail (fun e he => hv e (List.mem_cons_of_mem _ he)) hhead]

/-- `pySortBy` leaves an already start-sorted entity list unchanged
(stability on a sorted input). -/
theorem pySortBy_startLe_eq_self (l : List Entity)
    (hl : l.Pairwise (fun a b => a.start ≤ b.start)) :
    pySortBy startLe l = l :=
  pySortBy_eq_self startLe l hl startLe_of_sorted

/-! ## Redaction of a single entity -/

theorem redact_spanwise_singleton (text tok : List Char) (pres : List (String × Int))
    (ent : Entity) (hse : ent.start < ent.end_) :
    redact_spanwise text [ent] tok pres =
      text.take ent.start ++
        renderReplacement ((text.drop ent.start).take (ent.end_ - ent.start)) tok
          (lookupKeep pres ent.type) ++
        text.drop ent.end_ := by
  rw [redact_spanwise, if_neg (by simp : ¬([ent] = ([] : List Entity)))]
  have hs : pySortBy startLe [ent] = [ent] := rfl
  rw [hs, redactLoop, Nat.max_zero, if_neg (not_le.mpr hse), Nat.sub_zero, List.drop_zero]
  rfl

/-! ## Two-candidate merges (the tie-break analysis) -/

theorem merge_pair_first (a b : Entity)
    (hov : intersects a.start a.end_ b.start b.end_ = true)
    (hva : a.start < a.end_)
    (hle1 : mergeLe (a, 0) (b, 1) = true)
    (hle2 : mergeLe (b, 0) (a, 1) = false) :
    merge_entities [a] [b] = [a] ∧ merge_entities [b] [a] = [a] := by
  have hovba : intersects b.start b.end_ a.start a.end_ = true := by
    rw [intersects_symm]
    exact hov
  have hacc : acceptGreedy [a, b] [] = [a] := by
    rw [acceptGreedy, if_neg (not_le.mpr hva)]
    rw [if_neg (by simp [overlapsAny] : ¬(overlapsAny a.start a.end_ [] = true))]
    by_cases hvb : b.start ≥ b.end_
    · rw [acceptGreedy, if_pos hvb]
      rfl
    · rw [acceptGreedy, if_neg hvb]
      rw [if_pos (by simp [overlapsAny, hovba] :
        overlapsAny b.start b.end_ ([] ++ [(a.start, a.end_)]) = true)]
      rfl
  constructor
  · have hsort : pySortBy mergeLe ([a] ++ [b]) = [a, b] := by
      show (insertSortedB mergeLe (a, 0) (insertSortedB mergeLe (b, 1) [])).map
        Prod.fst = [a, b]
      rw [insertSortedB, insertSortedB, if_pos hle1]
      rfl
    unfold merge_entities
    rw [hsort, hacc]
    rfl
  · have hsort : pySortBy mergeLe ([b] ++ [a]) = [a, b] := by
      show (insertSortedB mergeLe (b, 0) (insertSortedB mergeLe (a, 1) [])).map
        Prod.fst = [a, b]
      rw [insertSortedB, insertSortedB, if_neg (ne_true_of_eq_false hle2)]
      rfl
    unfold merge_entities
    rw [hsort, hacc]
    rfl

/-- `mergeLe` on explicit pairs, for syntactic rewriting. -/
theorem mergeLe_pair (x y : Entity) (i j : Nat) :
    mergeLe (x, i) (y, j) =
      (if x.score = y.score then
        if spanLen x = spanLen y then
          if x.start = y.start then decide (i ≤ j) else decide (x.start < y.start)
        else decide (spanLen y < spanLen x)
      else decide (y.score < x.score)) := rfl

/-! ## Claim theorems -/

/-- C1: `_merge_entities` sorts candidates by score descending, then
span length descending, then start ascending, and greedily accepts
non-intersecting spans in that order; consequently, of two overlapping
candidates with equal score the longer-span one is kept, and with equal
score and equal span length the earlier-starting one is kept —
whichever argument order the two candidates arrive in. -/
theorem merge_entities_tiebreak (a b : Entity)
    (hov : intersects a.start a.end_ b.start b.end_ = true)
    (hsc : a.score = b.score) (hva : a.start < a.end_) :
    (spanLen b < spanLen a →
      merge_entities [a] [b] = [a] ∧ merge_entities [b] [a] = [a]) ∧
    (spanLen a = spanLen b → a.start < b.start →
      merge_entities [a] [b] = [a] ∧ merge_entities [b] [a] = [a]) := by
  constructor
  · intro h3
    apply merge_pair_first a b hov hva
    · rw [mergeLe_pair, if_pos hsc, if_neg (ne_of_gt h3), decide_eq_true_eq]
      exact h3
    · rw [mergeLe_pair, if_pos hsc.symm, if_neg (ne_of_lt h3), decide_eq_false_iff_not]
      exact lt_asymm h3
  · intro h3 h4
    apply merge_pair_first a b hov hva
    · rw [mergeLe_pair, if_pos hsc, if_pos h3, if_neg (ne_of_lt h4), decide_eq_true_eq]
      exact h4
    · rw [mergeLe_pair, if_pos hsc.symm, if_pos h3.symm, if_neg (ne_of_gt h4),
        decide_eq_false_iff_not]
      omega

/-- Witness for C1 at concrete overlapping candidates: spans `[0,10)`
and `[5,9)` with equal score `1/2`. -/
theorem merge_entities_tiebreak_witness :
    (intersects (⟨"A", Rat.mk' 1 2, 0, 10, [], "t"⟩ : Entity).start
        (⟨"A", Rat.mk' 1 2, 0, 10, [], "t"⟩ : Entity).end_
        (⟨"B", Rat.mk' 1 2, 5, 9, [], "t"⟩ : Entity).start
        (⟨"B", Rat.mk' 1 2, 5, 9, [], "t"⟩ : Entity).end_ = true) ∧
    ((spanLen (⟨"B", Rat.mk' 1 2, 5, 9, [], "t"⟩ : Entity) <
        spanLen (⟨"A", Rat.mk' 1 2, 0, 10, [], "t"⟩ : Entity) →
      merge_entities [⟨"A", Rat.mk' 1 2, 0, 10, [], "t"⟩]
          [⟨"B", Rat.mk' 1 2, 5, 9, [], "t"⟩] = [⟨"A", Rat.mk' 1 2, 0, 10, [], "t"⟩] ∧
        merge_entities [⟨"B", Rat.mk' 1 2, 5, 9, [], "t"⟩]
          [⟨"A", Rat.mk' 1 2, 0, 10, [], "t"⟩] = [⟨"A", Rat.mk' 1 2, 0, 10, [], "t"⟩]) ∧
      (spanLen (⟨"A", Rat.mk' 1 2, 0, 10, [], "t"⟩ : Entity) =
          spanLen (⟨"B", Rat.mk' 1 2, 5, 9, [], "t"⟩ : Entity) →
        (⟨"A", Rat.mk' 1 2, 0, 10, [], "t"⟩ : Entity).start <
          (⟨"B", Rat.mk' 1 2, 5, 9, [], "t"⟩ : Entity).start →
        merge_entities [⟨"A", Rat.mk' 1 2, 0, 10, [], "t"⟩]
            [⟨"B", Rat.mk' 1 2, 5, 9, [], "t"⟩] = [⟨"A", Rat.mk' 1 2, 0, 10, [], "t"⟩] ∧
          merge_entities [⟨"B", Rat.mk' 1 2, 5, 9, [], "t"⟩]
            [⟨"A", Rat.mk' 1 2, 0, 10, [], "t"⟩] = [⟨"A", Rat.mk' 1 2, 0, 10, [], "t"⟩])) :=
  ⟨by decide, merge_entities_tiebreak _ _ (by decide) (by decide) (by decide)⟩

/-- C2: for every configuration and every string input, the entity set
of the report returned by `detect_pii` is pairwise non-overlapping (no
two half-open `[start, end)` ranges intersect) and is sorted by `start`
ascending. -/
theorem detect_pii_entities_invariant (cfg : PiiConfig) (text : List Char) :
    (detect_pii cfg text).entities.Pairwise
      (fun a b => intersects a.start a.end_ b.start b.end_ = false) ∧
    (detect_pii cfg text).entities.Pairwise (fun a b => a.start ≤ b.start) := by
  constructor
  · rw [detect_pii_entities_def]
    exact merge_entities_pairwise _ _
  · exact detect_pii_sorted cfg text

/-- C3: `detect_pii` fails exactly on non-string inputs (a `TypeError`
before any detection work); an exception from an optional external
detector (Comprehend or spaCy) is caught at the call site, that
detector contributes zero candidates, and the call behaves exactly as
if the detector were disabled. -/
theorem detect_pii_error_policy (cfg : PiiConfig) :
    detect_pii_checked cfg PyVal.nonStr = Except.error PyErr.typeError ∧
    (∀ t, detect_pii_checked cfg (PyVal.str t) = Except.ok (detect_pii cfg t)) ∧
    (∀ (t : List Char) (ferr : List Char → String),
      detect_pii { cfg with comprehendDetect := fun u => Except.error (ferr u) } t =
        detect_pii { cfg with comprehendEnabled := false } t) ∧
    (∀ (t : List Char) (ferr : List Char → String),
      detect_pii { cfg with spacyDetect := fun u => Except.error (ferr u) } t =
        detect_pii { cfg with spacyAvailable := false } t) := by
  obtain ⟨ce, cd, sa, sd⟩ := cfg
  refine ⟨rfl, fun t => rfl, fun t ferr => ?_, fun t ferr => ?_⟩
  · cases ce <;> rfl
  · cases sa <;> rfl

/-- C6: the redacted string of `redact_pii` is exactly the left-to-
right reconstruction `text[0:e1.start] ++ render(e1) ++
text[e1.end:e2.start] ++ ... ++ text[last.end:]` over the accepted
entities in start order; in particular every character outside the
accepted spans appears unchanged, in order, and no entity is rendered
twice. -/
theorem redact_pii_reconstruction (cfg : PiiConfig) (text tok : List Char)
    (pres : List (String × Int)) :
    (redact_pii cfg text tok pres).1 =
      reconstructSpec text tok pres (detect_pii cfg text).entities 0 := by
  simp only [redact_pii]
  by_cases hE : (detect_pii cfg text).entities = []
  · rw [hE]
    simp [redact_spanwise, reconstructSpec]
  · rw [redact_spanwise, if_neg hE, pySortBy_startLe_eq_self _ (detect_pii_sorted cfg text)]
    exact redactLoop_eq_reconstructSpec text tok pres _ 0 (detect_pii_chain cfg text)
      (fun e he => detect_pii_mem_valid cfg text e he) (fun e _ => Nat.zero_le _)

/-- C9: with only the regex detectors active (Comprehend disabled, no
spaCy model), `detect_pii` is a function of the text alone — the
external oracles cannot influence the report, so two calls on the same
input return identical reports. -/
theorem detect_pii_regex_only_deterministic
    (o1 o2 o1' o2' : List Char → Except String (List Entity)) (t : List Char) :
    detect_pii ⟨false, o1, false, o2⟩ t = detect_pii ⟨false, o1', false, o2'⟩ t := rfl

/-- C5: redacting an entity whose type has a preserve-last-`N` policy
with `N > 0` renders `token ++ fragment[-N:]` when the matched fragment
has at least `N` characters, and `token ++ fragment` (the entire
fragment, never truncated) when it is shorter. -/
theorem redact_preserve_last_policy (text tok : List Char) (pres : List (String × Int))
    (ent : Entity) (N : Int)
    (hlook : pres.lookup ent.type = some N) (hN : 0 < N) (hse : ent.start < ent.end_) :
    (N ≤ (((text.drop ent.start).take (ent.end_ - ent.start)).length : Int) →
      redact_spanwise text [ent] tok pres =
        text.take ent.start ++ tok ++
          ((text.drop ent.start).take (ent.end_ - ent.start)).drop
            (((text.drop ent.start).take (ent.end_ - ent.start)).length - N.toNat) ++
          text.drop ent.end_) ∧
    ((((text.drop ent.start).take (ent.end_ - ent.start)).length : Int) < N →
      redact_spanwise text [ent] tok pres =
        text.take ent.start ++ tok ++ (text.drop ent.start).take (ent.end_ - ent.start) ++
          text.drop ent.end_) := by
  have hkeep : lookupKeep pres ent.type = N := by
    rw [lookupKeep, hlook]
    rfl
  have hsing := redact_spanwise_singleton text tok pres ent hse
  rw [hkeep] at hsing
  constructor
  · intro hlen
    rw [hsing]
    have hmask : renderReplacement ((text.drop ent.start).take (ent.end_ - ent.start)) tok N =
        tok ++ ((text.drop ent.start).take (ent.end_ - ent.start)).drop
          (((text.drop ent.start).take (ent.end_ - ent.start)).length - N.toNat) := by
      rw [renderReplacement, if_pos hN.ne', mask_keep_last, if_neg (not_le.mpr hN)]
      by_cases hl : (((text.drop ent.start).take (ent.end_ - ent.start)).length : Int) ≤ N
      · rw [if_pos hl, show ((text.drop ent.start).take (ent.end_ - ent.start)).length -
          N.toNat = 0 from by omega, List.drop_zero]
      · rw [if_neg hl]
    rw [hmask]
    simp only [List.append_assoc]
  · intro hlen
    rw [hsing]
    have hmask : renderReplacement ((text.drop ent.start).take (ent.end_ - ent.start)) tok N =
        tok ++ (text.drop ent.start).take (ent.end_ - ent.start) := by
      rw [renderReplacement, if_pos hN.ne', mask_keep_last, if_neg (not_le.mpr hN),
        if_pos (le_of_lt hlen)]
    rw [hmask]
    simp only [List.append_assoc]

/-- Witness for C5: redacting the span `[2,6)` of `"abcdefgh"` of type
`"T"` with preserve-last-2. -/
theorem redact_preserve_last_policy_witness :
    ([("T", (2 : Int))].lookup (⟨"T", Rat.mk' 1 2, 2, 6, [], "r"⟩ : Entity).type =
        some 2 ∧ (0 : Int) < 2 ∧
      (⟨"T", Rat.mk' 1 2, 2, 6, [], "r"⟩ : Entity).start <
        (⟨"T", Rat.mk' 1 2, 2, 6, [], "r"⟩ : Entity).end_) ∧
    ((2 ≤ ((("abcdefgh".toList.drop (⟨"T", Rat.mk' 1 2, 2, 6, [], "r"⟩ : Entity).start).take
          ((⟨"T", Rat.mk' 1 2, 2, 6, [], "r"⟩ : Entity).end_ -
            (⟨"T", Rat.mk' 1 2, 2, 6, [], "r"⟩ : Entity).start)).length : Int) →
      redact_spanwise "abcdefgh".toList [⟨"T", Rat.mk' 1 2, 2, 6, [], "r"⟩]
          "[X]".toList [("T", 2)] =
        "abcdefgh".toList.take (⟨"T", Rat.mk' 1 2, 2, 6, [], "r"⟩ : Entity).start ++
          "[X]".toList ++
          (("abcdefgh".toList.drop (⟨"T", Rat.mk' 1 2, 2, 6, [], "r"⟩ : Entity).start).take
            ((⟨"T", Rat.mk' 1 2, 2, 6, [], "r"⟩ : Entity).end_ -
              (⟨"T", Rat.mk' 1 2, 2, 6, [], "r"⟩ : Entity).start)).drop
            ((("abcdefgh".toList.drop (⟨"T", Rat.mk' 1 2, 2, 6, [], "r"⟩ : Entity).start).take
              ((⟨"T", Rat.mk' 1 2, 2, 6, [], "r"⟩ : Entity).end_ -
                (⟨"T", Rat.mk' 1 2, 2, 6, [], "r"⟩ : Entity).start)).length - (2 : Int).toNat) ++
          "abcdefgh".toList.drop (⟨"T", Rat.mk' 1 2, 2, 6, [], "r"⟩ : Entity).end_) ∧
    (((("abcdefgh".toList.drop (⟨"T", Rat.mk' 1 2, 2, 6, [], "r"⟩ : Entity).start).take
          ((⟨"T", Rat.mk' 1 2, 2, 6, [], "r"⟩ : Entity).end_ -
            (⟨"T", Rat.mk' 1 2, 2, 6, [], "r"⟩ : Entity).start)).length : Int) < 2 →
      redact_spanwise "abcdefgh".toList [⟨"T", Rat.mk' 1 2, 2, 6, [], "r"⟩]
          "[X]".toList [("T", 2)] =
        "abcdefgh".toList.take (⟨"T", Rat.mk' 1 2, 2, 6, [], "r"⟩ : Entity).start ++
          "[X]".toList ++
          ("abcdefgh".toList.drop (⟨"T", Rat.mk' 1 2, 2, 6, [], "r"⟩ : Entity).start).take
            ((⟨"T", Rat.mk' 1 2, 2, 6, [], "r"⟩ : Entity).end_ -
              (⟨"T", Rat.mk' 1 2, 2, 6, [], "r"⟩ : Entity).start) ++
          "abcdefgh".toList.drop (⟨"T", Rat.mk' 1 2, 2, 6, [], "r"⟩ : Entity).end_)) :=
  ⟨⟨by decide, by decide, by decide⟩,
    redact_preserve_last_policy "abcdefgh".toList "[X]".toList [("T", 2)]
      ⟨"T", Rat.mk' 1 2, 2, 6, [], "r"⟩ 2 (by decide) (by decide) (by decide)⟩

/-- C10: a preserve-last-`N` entry with `N ≤ 0` renders the plain
replacement token with no fragment characters appended, exactly as when
no policy is configured for the type. -/
theorem redact_keep_nonpositive (text tok : List Char) (pres : List (String × Int))
    (ent : Entity) (N : Int)
    (hlook : pres.lookup ent.type = some N) (hN : N ≤ 0) (hse : ent.start < ent.end_) :
    redact_spanwise text [ent] tok pres =
      text.take ent.start ++ tok ++ text.drop ent.end_ ∧
    redact_spanwise text [ent] tok [] =
      text.take ent.start ++ tok ++ text.drop ent.end_ := by
  have hkeep : lookupKeep pres ent.type = N := by
    rw [lookupKeep, hlook]
    rfl
  have h1 := redact_spanwise_singleton text tok pres ent hse
  have h2 := redact_spanwise_singleton text tok [] ent hse
  rw [hkeep] at h1
  have hr : renderReplacement ((text.drop ent.start).take (ent.end_ - ent.start)) tok N =
      tok := by
    rw [renderReplacement]
    by_cases h0 : N = 0
    · rw [if_neg (by simp [h0])]
    · rw [if_pos h0, mask_keep_last, if_pos hN]
  have hr0 : renderReplacement ((text.drop ent.start).take (ent.end_ - ent.start)) tok
      (lookupKeep [] ent.type) = tok := by
    rw [show lookupKeep [] ent.type = 0 from rfl, renderReplacement, if_neg (by simp)]
  constructor
  · rw [h1, hr]
  · rw [h2, hr0]

/-- Witness for C10: a negative preserve entry (`N = -3`) renders the
plain token. -/
theorem redact_keep_nonpositive_witness :
    ([("T", (-3 : Int))].lookup (⟨"T", Rat.mk' 1 2, 2, 6, [], "r"⟩ : Entity).type =
        some (-3) ∧ (-3 : Int) ≤ 0 ∧
      (⟨"T", Rat.mk' 1 2, 2, 6, [], "r"⟩ : Entity).start <
        (⟨"T", Rat.mk' 1 2, 2, 6, [], "r"⟩ : Entity).end_) ∧
    (redact_spanwise "abcdefgh".toList [⟨"T", Rat.mk' 1 2, 2, 6, [], "r"⟩]
        "[X]".toList [("T", -3)] =
      "abcdefgh".toList.take (⟨"T", Rat.mk' 1 2, 2, 6, [], "r"⟩ : Entity).start ++
        "[X]".toList ++
        "abcdefgh".toList.drop (⟨"T", Rat.mk' 1 2, 2, 6, [], "r"⟩ : Entity).end_ ∧
      redact_spanwise "abcdefgh".toList [⟨"T", Rat.mk' 1 2, 2, 6, [], "r"⟩]
        "[X]".toList [] =
      "abcdefgh".toList.take (⟨"T", Rat.mk' 1 2, 2, 6, [], "r"⟩ : Entity).start ++
        "[X]".toList ++
        "abcdefgh".toList.drop (⟨"T", Rat.mk' 1 2, 2, 6, [], "r"⟩ : Entity).end_) :=
  ⟨⟨by decide, by decide, by decide⟩,
    redact_keep_nonpositive "abcdefgh".toList "[X]".toList [("T", -3)]
      ⟨"T", Rat.mk' 1 2, 2, 6, [], "r"⟩ (-3) (by decide) (by decide) (by decide)⟩

/-- C7: on `"Contact me at jane@example.com or 555-123-4567."` the
regex-only detector returns exactly the EMAIL entity
`jane@example.com` (score 0.95) and the PHONE entity `555-123-4567`
(score 0.70), non-overlapping, in that left-to-right order, and
redaction with the default token yields
`"Contact me at [REDACTED] or [REDACTED]."`. -/
theorem detect_redact_email_phone_scenario :
    (detect_pii regexOnly ("Contact me at jane@example.com or 555-123-4567.".toList)).entities =
      [{ type := "EMAIL", score := Rat.mk' 19 20, start := 14, end_ := 30,
         text := "jane@example.com".toList, source := "regex" },
       { type := "PHONE", score := Rat.mk' 7 10, start := 34, end_ := 46,
         text := "555-123-4567".toList, source := "regex" }] ∧
    intersects 14 30 34 46 = false ∧
    (redact_pii regexOnly ("Contact me at jane@example.com or 555-123-4567.".toList)
        DEFAULT_REPLACEMENT []).1 =
      "Contact me at [REDACTED] or [REDACTED].".toList :=
  ⟨by decide, by decide, by decide⟩

/-- C8: on `"My SSN is 123-45-6789."` the regex-only detector returns
exactly one entity — SSN, score 0.98, spanning `123-45-6789` — and no
PHONE or US_DRIVER_LICENSE entity survives the merge. -/
theorem detect_ssn_scenario :
    (detect_pii regexOnly ("My SSN is 123-45-6789.".toList)).entities =
      [{ type := "SSN", score := Rat.mk' 49 50, start := 10, end_ := 21,
         text := "123-45-6789".toList, source := "regex" }] ∧
    ((detect_pii regexOnly ("My SSN is 123-45-6789.".toList)).entities.filter
      (fun e => e.type == "PHONE" || e.type == "US_DRIVER_LICENSE")) = [] :=
  ⟨by decide, by decide⟩

/-- C4 (counterexample): redacting `"4111111111111111"` with
`preserve_last_n = {"CREDIT_CARD": 4}` and the default token does NOT
produce a string containing `"[REDACTED]1111"`: the PHONE pattern
(score 0.70) matches the first 15 digits and wins the merge against the
CREDIT_CARD candidate (score 0.60), so the credit-card preserve policy
never applies. -/
theorem credit_card_preserve_counterexample :
    containsSub ("[REDACTED]1111".toList)
      ((redact_pii regexOnly ("4111111111111111".toList) DEFAULT_REPLACEMENT
        [("CREDIT_CARD", 4)]).1) = false := by decide

/-- C4 (amended): redacting `"4111111111111111"` with
`preserve_last_n = {"CREDIT_CARD": 4}` yields `"[REDACTED]1"`: the
merge keeps the PHONE entity over the first 15 digits (score 0.70 beats
the CREDIT_CARD 0.60), the PHONE type has no preserve policy, and only
the 16th digit survives outside the accepted span. -/
theorem credit_card_preserve_amended :
    (redact_pii regexOnly ("4111111111111111".toList) DEFAULT_REPLACEMENT
      [("CREDIT_CARD", 4)]).1 = "[REDACTED]1".toList ∧
    (detect_pii regexOnly ("4111111111111111".toList)).entities =
      [{ type := "PHONE", score := Rat.mk' 7 10, start := 0, end_ := 15,
         text := "411111111111111".toList, source := "regex" }] :=
  ⟨by decide, by decide⟩

end PiiDetector
